import Mathlib

/-!
Verification of the chunked CSV-to-Parquet converter
(`csv_splitter_converter.py`, class `CSVSplitterConverter`).

The Python code is shallowly embedded here.  The embedding choices:

* A data line of the input CSV is `Line`: either `good r` (a line that the
  pandas parser turns into the record `r`), `bad` (a malformed line, i.e. one
  with too many fields, which `on_bad_lines='skip'` drops and the default
  `on_bad_lines='error'` turns into a `ParserError`), or `ioFail` (a point at
  which reading raises an I/O or decode error, e.g. undecodable bytes).
* A record (`Row`) is its list of fields.
* The file handed to `pd.read_csv` is `FileRes`: `unreadable` (opening raises,
  e.g. `FileNotFoundError`), `empty` (a zero-byte file: every `read_csv` call
  raises `EmptyDataError`), or `content ls` (header present, data lines `ls`).
* `pandas.DataFrame.memory_usage(deep=True).sum()` applied to a sample of
  records is an external measurement; it is a parameter `mem` of the model.
* `DataFrame.to_parquet(path, index=False)` writes directly to `path` (the
  source performs no write-to-temporary-and-rename).  A write either succeeds,
  fails leaving nothing at the path, or fails leaving a truncated file at the
  path; which one happens is part of the environment (`WriteOutcome`).
  Reading a successfully written segment back yields exactly the records that
  were written, in the same column order, with no index column (guarantee of
  `to_parquet(index=False)` / `read_parquet`); the disk model therefore stores
  the written records themselves.
* Python `int()` applied to a float truncates toward zero (`pytrunc`).
  Exact values are modelled in `ℚ`; the float rounding of the Python runtime
  is not modelled.
-/

namespace CsvSplit

/-- A parsed CSV record: the list of its fields. -/
abbrev Row := List String

/-- One data line of the input file, as the pandas reader sees it. -/
inductive Line where
  | good (r : Row)
  | bad
  | ioFail
  deriving DecidableEq, Repr

/-- The input file as handed to `pd.read_csv`. -/
inductive FileRes where
  | unreadable
  | empty
  | content (ls : List Line)
  deriving DecidableEq, Repr

/-- Outcome of one `chunk.to_parquet(output_file, index=False)` call:
success, failure leaving nothing at the path, or failure leaving a
truncated (partially written) file at the path. -/
inductive WriteOutcome where
  | ok
  | failClean
  | failTrunc
  deriving DecidableEq, Repr

/-- A file on disk under the output directory: either a completely written
segment holding its records, or a truncated leftover of a failed write. -/
inductive FileContent where
  | full (rows : List Row)
  | truncated
  deriving DecidableEq, Repr

/-- The output directory: files in the order they were created. -/
abbrev Disk := List (String × FileContent)

/-- Reading a file from the output directory: the first entry with the
given name (names written by a run are distinct). -/
def readFile (d : Disk) (name : String) : Option FileContent :=
  (d.find? (fun e => e.1 == name)).map (fun e => e.2)

def isGoodLine : Line → Bool
  | Line.good _ => true
  | _ => false

def isBadLine : Line → Bool
  | Line.bad => true
  | _ => false

/-- No I/O or decode failure occurs while streaming these lines. -/
def noFail (ls : List Line) : Bool :=
  ls.all (fun l => l ≠ Line.ioFail)

/-- The records a skip-mode (`on_bad_lines='skip'`) reader would produce
from these lines, ignoring I/O failures. -/
def parsedRows : List Line → List Row
  | [] => []
  | Line.good r :: t => r :: parsedRows t
  | Line.bad :: t => parsedRows t
  | Line.ioFail :: t => parsedRows t

/-- One pull of the skip-mode chunked reader
(`pd.read_csv(..., chunksize=k, on_bad_lines='skip')`): collect up to `k`
parsed records, skipping malformed lines; reading stops at the `k`-th record
or at end of file; hitting an I/O/decode failure first raises. -/
def readBatch (k : Nat) : List Line → Except Unit (List Row × List Line)
  | [] => Except.ok ([], [])
  | Line.good r :: rest =>
      if k ≤ 1 then Except.ok ([r], rest)
      else
        match readBatch (k - 1) rest with
        | Except.ok (rs, rem) => Except.ok (r :: rs, rem)
        | Except.error e => Except.error e
  | Line.bad :: rest => readBatch k rest
  | Line.ioFail :: _ => Except.error ()

theorem readBatch_length {k : Nat} {ls : List Line} {b : List Row}
    {rem : List Line} (h : readBatch k ls = Except.ok (b, rem)) :
    b.length + rem.length ≤ ls.length := by
  induction ls generalizing k b rem with
  | nil =>
      simp only [readBatch] at h
      cases h
      simp
  | cons hd tl ih =>
      cases hd with
      | good r =>
          simp only [readBatch] at h
          by_cases hk : k ≤ 1
          · simp only [if_pos hk] at h
            cases h
            simp only [List.length_cons, List.length_nil]
            omega
          · simp only [if_neg hk] at h
            cases hh : readBatch (k - 1) tl with
            | ok p =>
                obtain ⟨rs, rm⟩ := p
                rw [hh] at h
                cases h
                have := ih hh
                simp only [List.length_cons]
                omega
            | error e => rw [hh] at h; cases h
      | bad =>
          simp only [readBatch] at h
          have := ih h
          simp only [List.length_cons]
          omega
      | ioFail => simp [readBatch] at h

theorem readBatch_empty_rem {k : Nat} {ls rem : List Line}
    (h : readBatch k ls = Except.ok ([], rem)) : rem = [] := by
  induction ls generalizing k with
  | nil =>
      simp only [readBatch] at h
      cases h
      rfl
  | cons hd tl ih =>
      cases hd with
      | good r =>
          simp only [readBatch] at h
          by_cases hk : k ≤ 1
          · simp only [if_pos hk] at h
            cases h
          · simp only [if_neg hk] at h
            cases hh : readBatch (k - 1) tl with
            | ok p =>
                obtain ⟨rs, rm⟩ := p
                rw [hh] at h
                cases h
            | error e => rw [hh] at h; cases h
      | bad =>
          simp only [readBatch] at h
          exact ih h
      | ioFail => simp [readBatch] at h

theorem readBatch_rem_lt {k : Nat} {ls : List Line} {r : Row} {rs : List Row}
    {rem : List Line} (h : readBatch k ls = Except.ok (r :: rs, rem)) :
    rem.length < ls.length := by
  have := readBatch_length h
  simp only [List.length_cons] at this
  omega

/-- On failure-free lines the reader never raises: it yields a batch and the
unread rest, and the batch is an initial piece of the parsed records. -/
theorem readBatch_clean {ls : List Line} (hnf : noFail ls = true) (k : Nat) :
    ∃ b rem, readBatch k ls = Except.ok (b, rem) ∧
      parsedRows ls = b ++ parsedRows rem ∧ noFail rem = true := by
  induction ls generalizing k with
  | nil => exact ⟨[], [], rfl, rfl, rfl⟩
  | cons hd tl ih =>
      have hnf' : noFail tl = true := by
        simp only [noFail, List.all_cons, Bool.and_eq_true] at hnf
        exact hnf.2
      cases hd with
      | good r =>
          by_cases hk : k ≤ 1
          · exact ⟨[r], tl, by simp only [readBatch, if_pos hk], rfl, hnf'⟩
          · obtain ⟨b, rem, hb, hp, hnr⟩ := ih hnf' (k - 1)
            refine ⟨r :: b, rem, ?_, ?_, hnr⟩
            · simp only [readBatch, if_neg hk, hb]
            · simp only [parsedRows, hp, List.cons_append]
      | bad =>
          obtain ⟨b, rem, hb, hp, hnr⟩ := ih hnf' k
          exact ⟨b, rem, by simp only [readBatch, hb], by simp only [parsedRows, hp], hnr⟩
      | ioFail =>
          simp only [noFail, List.all_cons, Bool.and_eq_true] at hnf
          simp at hnf

/-- Reading a batch of `k ≤ N` records from `N` identical well-formed lines. -/
theorem readBatch_replicate_le {r : Row} {k N : Nat} (hk : 1 ≤ k) (hN : k ≤ N) :
    readBatch k (List.replicate N (Line.good r)) =
      Except.ok (List.replicate k r, List.replicate (N - k) (Line.good r)) := by
  induction k generalizing N with
  | zero => omega
  | succ k ih =>
      obtain ⟨N, rfl⟩ : ∃ M, N = M + 1 := ⟨N - 1, by omega⟩
      rw [List.replicate_succ]
      by_cases hk1 : k = 0
      · subst hk1
        simp [readBatch]
      · have h1 : ¬ (k + 1 ≤ 1) := by omega
        simp only [readBatch, if_neg h1, Nat.add_sub_cancel]
        rw [ih (by omega) (by omega)]
        have : N + 1 - (k + 1) = N - k := by omega
        rw [this, List.replicate_succ]

/-- Reading a batch from fewer well-formed lines than the batch size
consumes the whole file. -/
theorem readBatch_replicate_lt {r : Row} {k N : Nat} (hN : N < k) :
    readBatch k (List.replicate N (Line.good r)) =
      Except.ok (List.replicate N r, []) := by
  induction N generalizing k with
  | zero => simp [readBatch]
  | succ N ih =>
      rw [List.replicate_succ]
      have h1 : ¬ (k ≤ 1) := by omega
      simp only [readBatch, if_neg h1]
      rw [ih (by omega)]
      rw [List.replicate_succ]

/-! Output filenames.  The source builds `f"chunk_{chunk_num:04d}.parquet"`:
the decimal numeral of the sequence number, left-padded with zeros to a width
of at least four characters. -/

/-- The character for a decimal digit (`0`–`9` for `d ≤ 9`). -/
def digitChar (d : Nat) : Char := Char.ofNat (48 + d)

/-- Decimal digits of `n`, most significant first (empty for `0`). -/
def decDigits (n : Nat) : List Nat := (Nat.digits 10 n).reverse

/-- Decimal digits of `n` left-padded with zeros to width at least 4,
as Python's `format(n, '04d')` produces them. -/
def pad4 (n : Nat) : List Nat := List.replicate (4 - (decDigits n).length) 0 ++ decDigits n

/-- The characters of the output filename for segment `n`. -/
def chunkChars (n : Nat) : List Char :=
  "chunk_".data ++ (pad4 n).map digitChar ++ ".parquet".data

/-- The output filename for segment `n`: `chunk_<n, zero-padded to ≥ 4>.parquet`. -/
def chunkName (n : Nat) : String := String.mk (chunkChars n)

/-- Lexicographic order on filenames: pointwise comparison of the character
sequences, which is how Python compares and sorts strings. -/
def nameLt (s t : String) : Prop := s.data < t.data

theorem pad4_eq {n : Nat} (h : n ≤ 9999) :
    pad4 n = [n / 1000, n / 100 % 10, n / 10 % 10, n % 10] := by
  have h10 : (1:ℕ) < 10 := by norm_num
  by_cases h0 : n = 0
  · subst h0; simp [pad4, decDigits]
  by_cases h1 : n < 10
  · have d : Nat.digits 10 n = [n] := by
      rw [Nat.digits_def' h10 (by omega), (by omega : n / 10 = 0), Nat.digits_zero,
        (by omega : n % 10 = n)]
    have dd : decDigits n = [n] := by rw [decDigits, d, List.reverse_cons, List.reverse_nil,
      List.nil_append]
    rw [pad4, dd]
    show [0, 0, 0, n] = _
    simp only [List.cons.injEq, and_true]
    omega
  by_cases h2 : n < 100
  · have d : Nat.digits 10 n = [n % 10, n / 10] := by
      rw [Nat.digits_def' h10 (by omega), Nat.digits_def' h10 (by omega : 0 < n / 10),
        (by omega : n / 10 / 10 = 0), Nat.digits_zero, (by omega : n / 10 % 10 = n / 10)]
    have dd : decDigits n = [n / 10, n % 10] := by
      rw [decDigits, d]; rfl
    rw [pad4, dd]
    show [0, 0, n / 10, n % 10] = _
    simp only [List.cons.injEq, and_true]
    omega
  by_cases h3 : n < 1000
  · have d : Nat.digits 10 n = [n % 10, n / 10 % 10, n / 100] := by
      rw [Nat.digits_def' h10 (by omega), Nat.digits_def' h10 (by omega : 0 < n / 10),
        (by omega : n / 10 / 10 = n / 100), Nat.digits_def' h10 (by omega : 0 < n / 100),
        (by omega : n / 100 / 10 = 0), Nat.digits_zero, (by omega : n / 100 % 10 = n / 100)]
    have dd : decDigits n = [n / 100, n / 10 % 10, n % 10] := by
      rw [decDigits, d]; rfl
    rw [pad4, dd]
    show [0, n / 100, n / 10 % 10, n % 10] = _
    simp only [List.cons.injEq, and_true]
    omega
  · have d : Nat.digits 10 n = [n % 10, n / 10 % 10, n / 100 % 10, n / 1000] := by
      rw [Nat.digits_def' h10 (by omega), Nat.digits_def' h10 (by omega : 0 < n / 10),
        (by omega : n / 10 / 10 = n / 100), Nat.digits_def' h10 (by omega : 0 < n / 100),
        (by omega : n / 100 / 10 = n / 1000), Nat.digits_def' h10 (by omega : 0 < n / 1000),
        (by omega : n / 1000 / 10 = 0), Nat.digits_zero, (by omega : n / 1000 % 10 = n / 1000)]
    have dd : decDigits n = [n / 1000, n / 100 % 10, n / 10 % 10, n % 10] := by
      rw [decDigits, d]; rfl
    rw [pad4, dd]
    show [n / 1000, n / 100 % 10, n / 10 % 10, n % 10] = _
    rfl

theorem pad4_ten_thousand : pad4 10000 = [1, 0, 0, 0, 0] := by
  have h10 : (1:ℕ) < 10 := by norm_num
  have d : Nat.digits 10 10000 = [0, 0, 0, 0, 1] := by
    rw [Nat.digits_def' h10 (by norm_num : 0 < 10000),
      (by norm_num : 10000 % 10 = 0), (by norm_num : 10000 / 10 = 1000),
      Nat.digits_def' h10 (by norm_num : 0 < 1000),
      (by norm_num : 1000 % 10 = 0), (by norm_num : 1000 / 10 = 100),
      Nat.digits_def' h10 (by norm_num : 0 < 100),
      (by norm_num : 100 % 10 = 0), (by norm_num : 100 / 10 = 10),
      Nat.digits_def' h10 (by norm_num : 0 < 10),
      (by norm_num : 10 % 10 = 0), (by norm_num : 10 / 10 = 1),
      Nat.digits_def' h10 (by norm_num : 0 < 1),
      (by norm_num : 1 % 10 = 1), (by norm_num : 1 / 10 = 0), Nat.digits_zero]
  have dd : decDigits 10000 = [1, 0, 0, 0, 0] := by
    rw [decDigits, d]; rfl
  rw [pad4, dd]
  rfl

theorem digitChar_lt_digitChar : ∀ a, a < 10 → ∀ b, b < 10 → a < b →
    digitChar a < digitChar b := by decide

theorem digitChar_inj : ∀ a, a < 10 → ∀ b, b < 10 → digitChar a = digitChar b →
    a = b := by decide

theorem pad4_digits_lt {n : Nat} : ∀ d ∈ pad4 n, d < 10 := by
  intro d hd
  rcases List.mem_append.mp hd with h | h
  · rcases List.eq_of_mem_replicate h with rfl
    norm_num
  · exact Nat.digits_lt_base (by norm_num) (List.mem_reverse.mp h)

theorem ofDigits_replicate_zero (j : Nat) :
    Nat.ofDigits 10 (List.replicate j 0) = 0 := by
  induction j with
  | zero => rfl
  | succ j ih => rw [List.replicate_succ, Nat.ofDigits_cons, ih]

theorem ofDigits_pad4 (n : Nat) : Nat.ofDigits 10 (pad4 n).reverse = n := by
  simp only [pad4, List.reverse_append, List.reverse_replicate, decDigits,
    List.reverse_reverse]
  rw [Nat.ofDigits_append, Nat.ofDigits_digits, ofDigits_replicate_zero]
  ring

theorem pad4_injective {m n : Nat} (h : pad4 m = pad4 n) : m = n := by
  have hm := ofDigits_pad4 m
  rw [h, ofDigits_pad4] at hm
  omega

theorem map_digitChar_injective : ∀ {l1 l2 : List Nat}, (∀ d ∈ l1, d < 10) →
    (∀ d ∈ l2, d < 10) → l1.map digitChar = l2.map digitChar → l1 = l2 := by
  intro l1
  induction l1 with
  | nil =>
      intro l2 _ _ h
      cases l2 with
      | nil => rfl
      | cons b t => simp at h
  | cons a t ih =>
      intro l2 h1 h2 h
      cases l2 with
      | nil => simp at h
      | cons b t2 =>
          simp only [List.map_cons, List.cons.injEq] at h
          have ha : a = b := digitChar_inj a (h1 a (by simp)) b (h2 b (by simp)) h.1
          have ht : t = t2 :=
            ih (fun d hd => h1 d (by simp [hd])) (fun d hd => h2 d (by simp [hd])) h.2
          rw [ha, ht]

theorem chunkName_injective : Function.Injective chunkName := by
  intro m n h
  have hd : chunkChars m = chunkChars n := congrArg String.data h
  simp only [chunkChars, List.append_assoc] at hd
  have hd2 := List.append_cancel_left hd
  have hd3 := List.append_cancel_right hd2
  exact pad4_injective (map_digitChar_injective pad4_digits_lt pad4_digits_lt hd3)

theorem lex_append_left_iff (p : List Char) {a b : List Char} :
    (p ++ a) < (p ++ b) ↔ a < b := by
  induction p with
  | nil => simp
  | cons x t ih =>
      constructor
      · intro h
        cases h with
        | rel hr => exact absurd hr (lt_irrefl x)
        | cons h => exact ih.mp h
      · intro h
        exact List.Lex.cons (ih.mpr h)

theorem lex_append_of_lex {a b : List Char} (s t : List Char) (h : a < b)
    (hl : a.length = b.length) : (a ++ s) < (b ++ t) := by
  induction h with
  | nil => simp at hl
  | rel hr => exact List.Lex.rel hr
  | cons _ ih =>
      simp only [List.length_cons, Nat.add_right_cancel_iff] at hl
      exact List.Lex.cons (ih hl)

theorem digits4_lt {m n : Nat} (hmn : m < n) (hn : n ≤ 9999) :
    (pad4 m).map digitChar < (pad4 n).map digitChar := by
  rw [pad4_eq (by omega), pad4_eq hn]
  simp only [List.map_cons, List.map_nil]
  by_cases h3 : m / 1000 < n / 1000
  · exact List.Lex.rel (digitChar_lt_digitChar _ (by omega) _ (by omega) h3)
  have e3 : m / 1000 = n / 1000 := by omega
  rw [e3]
  apply List.Lex.cons
  by_cases h2 : m / 100 % 10 < n / 100 % 10
  · exact List.Lex.rel (digitChar_lt_digitChar _ (by omega) _ (by omega) h2)
  have e2 : m / 100 % 10 = n / 100 % 10 := by omega
  rw [e2]
  apply List.Lex.cons
  by_cases h1 : m / 10 % 10 < n / 10 % 10
  · exact List.Lex.rel (digitChar_lt_digitChar _ (by omega) _ (by omega) h1)
  have e1 : m / 10 % 10 = n / 10 % 10 := by omega
  rw [e1]
  apply List.Lex.cons
  have h0 : m % 10 < n % 10 := by omega
  exact List.Lex.rel (digitChar_lt_digitChar _ (by omega) _ (by omega) h0)

theorem chunkName_lt {m n : Nat} (hmn : m < n) (hn : n ≤ 9999) :
    nameLt (chunkName m) (chunkName n) := by
  show chunkChars m < chunkChars n
  simp only [chunkChars]
  rw [List.append_assoc, List.append_assoc]
  rw [lex_append_left_iff]
  apply lex_append_of_lex _ _ (digits4_lt hmn hn)
  rw [List.length_map, List.length_map, pad4_eq (by omega), pad4_eq hn]
  rfl

theorem chunkName_9999_10000 : ¬ nameLt (chunkName 9999) (chunkName 10000) := by
  show ¬ chunkChars 9999 < chunkChars 10000
  simp only [chunkChars, pad4_ten_thousand, pad4_eq (by norm_num : 9999 ≤ 9999)]
  norm_num
  decide

/-! The row counter `get_total_rows` (source lines 44–54).  It re-reads the
file with `pd.read_csv(csv_path, encoding='utf-8', chunksize=10000)` — note:
no `on_bad_lines` option, so the default `on_bad_lines='error'` applies and a
malformed line raises `ParserError` — and sums the lengths of the yielded
chunks, which is the number of parseable records; the `chunksize` only bounds
memory and does not affect the sum.  Any exception is caught and turned into
`None`. -/

/-- The strict full read that `get_total_rows` performs: every line must
parse; a malformed line or an I/O failure raises. -/
def readStrictAll : List Line → Except Unit (List Row)
  | [] => Except.ok []
  | Line.good r :: t =>
      match readStrictAll t with
      | Except.ok rs => Except.ok (r :: rs)
      | Except.error e => Except.error e
  | Line.bad :: _ => Except.error ()
  | Line.ioFail :: _ => Except.error ()

/-- `CSVSplitterConverter.get_total_rows`: the total record count, or `none`
when any exception occurred while counting (unreadable path, empty file,
malformed line, I/O or decode failure). -/
def get_total_rows : FileRes → Option Nat
  | FileRes.unreadable => none
  | FileRes.empty => none
  | FileRes.content ls =>
      match readStrictAll ls with
      | Except.ok rows => some rows.length
      | Except.error _ => none

/-- Python `int()` applied to an exact rational value: truncation toward
zero. -/
def pytrunc (q : ℚ) : ℤ := q.num.tdiv q.den

/-- `CSVSplitterConverter.estimate_rows_per_chunk` (source lines 19–42).
`mem` stands for `lambda sample: sample_df.memory_usage(deep=True).sum()`,
the measured deep memory footprint of the sampled records (plus index).
The sample is the first 1000 records, read with `on_bad_lines='skip'`.

Branches mirror the Python control flow:
* unreadable path / empty file / I/O failure while sampling: the exception
  is caught, return 10000;
* zero-record sample: `sample_memory / len(sample_df)` is a numpy `int64`
  divided by `0`, which yields `inf` with a warning (no exception), then
  `int(target / inf) = int(0.0) = 0` and `max(1000, 0) = 1000`;
* zero measured memory with a nonempty sample: the average is `0.0`, the
  ratio is `inf`, and `int(inf)` raises `OverflowError`, caught → 10000;
* otherwise `max(1000, int(target_bytes / avg_row_size))`. -/
def estimate_rows_per_chunk (mem : List Row → ℚ) (file : FileRes)
    (chunk_size_mb : ℚ) : Nat :=
  match file with
  | FileRes.unreadable => 10000
  | FileRes.empty => 10000
  | FileRes.content ls =>
      match readBatch 1000 ls with
      | Except.error _ => 10000
      | Except.ok (sample, _) =>
          if sample.length = 0 then 1000
          else if mem sample = 0 then 10000
          else
            (max 1000
              (pytrunc (chunk_size_mb * 1048576 /
                (mem sample / (sample.length : ℚ))))).toNat

/-! The chunk iterator of `split_and_convert` (source lines 95–101):
`pd.read_csv(input_csv, chunksize=rows_per_chunk, encoding='utf-8',
on_bad_lines='skip', iterator=True)`.  `batchStream k ls` is the sequence of
chunks the iterator yields, paired with `true` when iteration ends by an
exception (I/O/decode failure) instead of `StopIteration`.  Every yielded
chunk consumes at least one input line, so the iterator makes at most
`ls.length + 1` pulls; the structural fuel `ls.length` therefore realizes the
full iteration. -/

def batchStreamAux (k : Nat) : Nat → List Line → List (List Row) × Bool
  | 0, _ => ([], false)
  | fuel + 1, ls =>
      match readBatch k ls with
      | Except.error _ => ([], true)
      | Except.ok ([], _) => ([], false)
      | Except.ok (r :: rs, rem) =>
          let t := batchStreamAux k fuel rem
          ((r :: rs) :: t.1, t.2)

/-- The chunks yielded by the iterator, and whether iteration ended with an
exception. -/
def batchStream (k : Nat) (ls : List Line) : List (List Row) × Bool :=
  batchStreamAux k ls.length ls

/-- The conversion loop of `split_and_convert` (source lines 104–128):
for each yielded chunk, in order, build `chunk_{n:04d}.parquet`, write the
chunk there (`to_parquet(..., index=False)`), and append the path to
`created_files`.  A failed write ends the loop and the `except` branch
returns the `created_files` accumulated so far; iteration ending in a reader
exception is caught by the same branch and also returns `created_files`.
The second component is the output directory contents. -/
def batchLoop (wr : Nat → List Row → WriteOutcome) :
    List (List Row) → Nat → List String → Disk → List String × Disk
  | [], _, acc, d => (acc, d)
  | b :: bs, n, acc, d =>
      match wr n b with
      | WriteOutcome.ok =>
          batchLoop wr bs (n + 1) (acc ++ [chunkName n])
            (d ++ [(chunkName n, FileContent.full b)])
      | WriteOutcome.failClean => (acc, d)
      | WriteOutcome.failTrunc => (acc, d ++ [(chunkName n, FileContent.truncated)])

/-- The `CSVSplitterConverter` object state: the single instance field
`self.chunk_size_mb` (`self.bytes_per_mb` is the constant `1048576`). -/
structure Converter where
  chunk_size_mb : ℚ
  deriving DecidableEq, Repr

/-- The environment of one `split_and_convert` call: the input file, the
pandas memory measurement, whether `output_dir.mkdir(parents=True,
exist_ok=True)` succeeds, and the outcome of each segment write. -/
structure Env where
  file : FileRes
  mem : List Row → ℚ
  mkdirOk : Bool
  write : Nat → List Row → WriteOutcome

/-- The chunk size the run uses: the explicit override if given
(source line 68–69), else the instance field. -/
def effSize (c : Converter) (csm : Option ℚ) : ℚ :=
  match csm with
  | some v => v
  | none => c.chunk_size_mb

/-- The `total` handed to the progress bar (source lines 79–83, 104):
`math.ceil(total_rows / rows_per_chunk)` when `total_rows` is truthy
(not `None` and not `0`), else `None`. -/
def reportOf (env : Env) (k : Nat) : Option Nat :=
  match get_total_rows env.file with
  | some t => if t = 0 then none else some ((t + k - 1) / k)
  | none => none

/-- The `try` block of `split_and_convert` (source lines 93–128): creating
the reader over an unreadable path raises `FileNotFoundError` and over an
empty file raises `EmptyDataError`, both caught by the `except` branch which
returns the empty `created_files`; otherwise the conversion loop runs. -/
def convertPass (env : Env) (k : Nat) : List String × Disk :=
  match env.file with
  | FileRes.unreadable => ([], [])
  | FileRes.empty => ([], [])
  | FileRes.content ls => batchLoop env.write (batchStream k ls).1 0 [] []

/-- `CSVSplitterConverter.split_and_convert` (source lines 56–128).
Returns the converter state after the call (the `chunk_size_mb` override
mutates `self` at line 68–69, before anything else), the final contents of
the output directory, and either `Except.error ()` when the call raises
(only `output_dir.mkdir` at line 73 is outside the `try`) or the pair of the
progress-bar total and the returned `created_files` (filenames; the source
returns them as paths under the fixed `output_dir`). -/
def split_and_convert (c : Converter) (env : Env) (csm : Option ℚ) :
    Converter × Disk × Except Unit (Option Nat × List String) :=
  let c2 := Converter.mk (effSize c csm)
  if env.mkdirOk then
    let k := estimate_rows_per_chunk env.mem env.file c2.chunk_size_mb
    let out := convertPass env k
    (c2, out.2, Except.ok (reportOf env k, out.1))
  else
    (c2, [], Except.error ())

/-! Characterization lemmas. -/

theorem readStrictAll_all_good : ∀ {ls : List Line}, ls.all isGoodLine = true →
    readStrictAll ls = Except.ok (parsedRows ls) := by
  intro ls h
  induction ls with
  | nil => rfl
  | cons hd tl ih =>
      simp only [List.all_cons, Bool.and_eq_true] at h
      cases hd with
      | good r => simp only [readStrictAll, ih h.2, parsedRows]
      | bad => simp [isGoodLine] at h
      | ioFail => simp [isGoodLine] at h

theorem readStrictAll_not_all_good : ∀ {ls : List Line}, ls.all isGoodLine = false →
    readStrictAll ls = Except.error () := by
  intro ls h
  induction ls with
  | nil => simp [List.all_nil] at h
  | cons hd tl ih =>
      cases hd with
      | good r =>
          simp only [List.all_cons, isGoodLine, Bool.true_and] at h
          simp only [readStrictAll, ih h]
      | bad => rfl
      | ioFail => rfl

theorem batchStreamAux_nil {k : Nat} : ∀ fuel, batchStreamAux k fuel [] = ([], false) := by
  intro fuel
  cases fuel with
  | zero => rfl
  | succ fuel => rfl

/-- On failure-free input the iterator ends normally and the yielded chunks
partition exactly the parseable records, in order. -/
theorem batchStreamAux_clean {k : Nat} :
    ∀ (fuel : Nat) (ls : List Line), noFail ls = true → ls.length ≤ fuel →
      (batchStreamAux k fuel ls).2 = false ∧
      (batchStreamAux k fuel ls).1.flatten = parsedRows ls := by
  intro fuel
  induction fuel with
  | zero =>
      intro ls _ hlen
      have : ls = [] := List.eq_nil_of_length_eq_zero (by omega)
      subst this
      exact ⟨rfl, rfl⟩
  | succ fuel ih =>
      intro ls hnf hlen
      obtain ⟨b, rem, hb, hp, hnr⟩ := readBatch_clean hnf k
      cases b with
      | nil =>
          have hrem : rem = [] := readBatch_empty_rem hb
          subst hrem
          have hv : batchStreamAux k (fuel + 1) ls = ([], false) := by
            simp [batchStreamAux, hb]
          rw [hv]
          refine ⟨rfl, ?_⟩
          rw [hp]
          rfl
      | cons r rs =>
          have hlt : rem.length < ls.length := readBatch_rem_lt hb
          have hv : batchStreamAux k (fuel + 1) ls =
              ((r :: rs) :: (batchStreamAux k fuel rem).1,
               (batchStreamAux k fuel rem).2) := by
            simp [batchStreamAux, hb]
          rw [hv]
          obtain ⟨ih1, ih2⟩ := ih rem hnr (by omega)
          refine ⟨ih1, ?_⟩
          simp only [List.flatten_cons, ih2, hp]

theorem batchStream_clean {k : Nat} {ls : List Line} (hnf : noFail ls = true) :
    (batchStream k ls).2 = false ∧
    (batchStream k ls).1.flatten = parsedRows ls :=
  batchStreamAux_clean ls.length ls hnf le_rfl

/-- The number of chunks yielded from `N` identical well-formed records with
batch size 1000. -/
theorem batchStreamAux_replicate_len (r : Row) :
    ∀ (fuel N : Nat), N ≤ fuel →
      (batchStreamAux 1000 fuel (List.replicate N (Line.good r))).2 = false ∧
      (batchStreamAux 1000 fuel (List.replicate N (Line.good r))).1.length =
        if N = 0 then 0 else (N - 1) / 1000 + 1 := by
  intro fuel
  induction fuel with
  | zero =>
      intro N hN
      have : N = 0 := by omega
      subst this
      exact ⟨rfl, rfl⟩
  | succ fuel ih =>
      intro N hN
      by_cases h0 : N = 0
      · subst h0
        rw [List.replicate_zero, batchStreamAux_nil]
        exact ⟨rfl, rfl⟩
      by_cases hsm : N < 1000
      · have hb := @readBatch_replicate_lt r 1000 N hsm
        obtain ⟨M, rfl⟩ : ∃ M, N = M + 1 := ⟨N - 1, by omega⟩
        simp only [List.replicate_succ] at hb
        have hv : batchStreamAux 1000 (fuel + 1)
            (List.replicate (M + 1) (Line.good r)) =
            ((r :: List.replicate M r) :: (batchStreamAux 1000 fuel []).1,
             (batchStreamAux 1000 fuel []).2) := by
          simp only [List.replicate_succ, batchStreamAux, hb]
        rw [hv, batchStreamAux_nil]
        refine ⟨rfl, ?_⟩
        simp only [List.length_cons, List.length_nil, if_neg h0]
        omega
      · obtain ⟨M, rfl⟩ : ∃ M, N = M + 1 := ⟨N - 1, by omega⟩
        have hb := @readBatch_replicate_le r 1000 (M + 1)
          (by norm_num) (by omega)
        have hbatch : List.replicate 1000 r = r :: List.replicate 999 r := rfl
        rw [hbatch] at hb
        have hv : batchStreamAux 1000 (fuel + 1)
            (List.replicate (M + 1) (Line.good r)) =
            ((r :: List.replicate 999 r) ::
              (batchStreamAux 1000 fuel
                (List.replicate (M + 1 - 1000) (Line.good r))).1,
             (batchStreamAux 1000 fuel
                (List.replicate (M + 1 - 1000) (Line.good r))).2) := by
          conv =>
            lhs
            rw [batchStreamAux]
          rw [hb]
        rw [hv]
        have hrem := ih (M + 1 - 1000) (by omega)
        refine ⟨hrem.1, ?_⟩
        simp only [List.length_cons, hrem.2]
        by_cases hz : M + 1 - 1000 = 0
        · rw [if_pos hz, if_neg h0]
          omega
        · rw [if_neg hz, if_neg h0]
          omega

/-- When every write succeeds, the loop returns one path per chunk, in
sequence order starting at `n`, and the disk holds exactly the corresponding
complete segment files. -/
theorem batchLoop_all_ok {wr : Nat → List Row → WriteOutcome}
    (hw : ∀ n b, wr n b = WriteOutcome.ok) :
    ∀ (bs : List (List Row)) (n : Nat) (acc : List String) (d : Disk),
      batchLoop wr bs n acc d =
        (acc ++ (List.range' n bs.length).map chunkName,
         d ++ (List.range' n bs.length).map
           (fun i => (chunkName i, FileContent.full (bs.getD (i - n) [])))) := by
  intro bs
  induction bs with
  | nil => intro n acc d; simp [batchLoop]
  | cons b t ih =>
      intro n acc d
      simp only [batchLoop, hw n b]
      rw [ih (n + 1)]
      have hmc : ∀ i ∈ List.range' (n + 1) t.length,
          (fun i => (chunkName i, FileContent.full (t.getD (i - (n + 1)) []))) i =
          (fun i => (chunkName i, FileContent.full ((b :: t).getD (i - n) []))) i := by
        intro i hi
        rcases List.mem_range'.mp hi with ⟨j, hj, rfl⟩
        simp only
        have e1 : n + 1 + 1 * j - (n + 1) = j := by omega
        have e2 : n + 1 + 1 * j - n = j + 1 := by omega
        rw [e1, e2, List.getD_cons_succ]
      simp only [List.length_cons, List.range'_succ, List.map_cons, Prod.mk.injEq]
      refine ⟨by simp [List.append_assoc], ?_⟩
      rw [List.append_assoc, List.singleton_append, Nat.sub_self, List.getD_cons_zero,
        List.map_congr_left hmc]

/-- When writes succeed for the first `N` chunks and fail on chunk `N`, the
loop returns exactly the paths of chunks `0..N-1` (offset by `n`), the disk
keeps their complete files, and a trunc-failing write leaves a truncated
file at chunk `N`'s path. -/
theorem batchLoop_fail {wr : Nat → List Row → WriteOutcome} :
    ∀ (bs : List (List Row)) (N n : Nat) (acc : List String) (d : Disk),
      N < bs.length →
      (∀ j, j < N → wr (n + j) (bs.getD j []) = WriteOutcome.ok) →
      wr (n + N) (bs.getD N []) ≠ WriteOutcome.ok →
      batchLoop wr bs n acc d =
        (acc ++ (List.range' n N).map chunkName,
         d ++ (List.range' n N).map
             (fun i => (chunkName i, FileContent.full (bs.getD (i - n) [])))
           ++ (if wr (n + N) (bs.getD N []) = WriteOutcome.failTrunc
               then [(chunkName (n + N), FileContent.truncated)] else [])) := by
  intro bs
  induction bs with
  | nil => intro N n acc d hN; simp at hN
  | cons b t ih =>
      intro N n acc d hN hok hfail
      cases N with
      | zero =>
          simp only [List.getD_cons_zero, Nat.add_zero] at hfail ⊢
          simp only [List.range'_zero, List.map_nil, List.append_nil]
          cases hw : wr n b with
          | ok => exact absurd hw hfail
          | failClean => simp [batchLoop, hw]
          | failTrunc => simp [batchLoop, hw]
      | succ N =>
          have hw0 : wr n b = WriteOutcome.ok := by
            have := hok 0 (by omega)
            simpa using this
          simp only [batchLoop, hw0]
          rw [ih N (n + 1) (acc ++ [chunkName n])
            (d ++ [(chunkName n, FileContent.full b)])
            (by simp only [List.length_cons] at hN; omega)
            (fun j hj => by
              have := hok (j + 1) (by omega)
              have he : n + (j + 1) = n + 1 + j := by omega
              rw [he] at this
              simpa using this)
            (by
              have he : n + 1 + N = n + (N + 1) := by omega
              rw [he]
              simpa using hfail)]
          have hmc : ∀ i ∈ List.range' (n + 1) N,
              (fun i => (chunkName i, FileContent.full (t.getD (i - (n + 1)) []))) i =
              (fun i => (chunkName i, FileContent.full ((b :: t).getD (i - n) []))) i := by
            intro i hi
            rcases List.mem_range'.mp hi with ⟨j, hj, rfl⟩
            simp only
            have e1 : n + 1 + 1 * j - (n + 1) = j := by omega
            have e2 : n + 1 + 1 * j - n = j + 1 := by omega
            rw [e1, e2, List.getD_cons_succ]
          have he : n + 1 + N = n + (N + 1) := by omega
          rw [he]
          simp only [List.getD_cons_succ, List.range'_succ, List.map_cons, Prod.mk.injEq]
          refine ⟨by simp [List.append_assoc], ?_⟩
          simp only [List.append_assoc, List.singleton_append, List.cons_append,
            Nat.sub_self, List.getD_cons_zero, List.nil_append, List.map_congr_left hmc]

/-- Whatever the write outcomes, the loop returns the paths of some initial
run of chunks `n..n+K-1`, the disk extends by exactly their complete files,
possibly followed by one truncated leftover at chunk `n+K`'s path. -/
theorem batchLoop_shape {wr : Nat → List Row → WriteOutcome} :
    ∀ (bs : List (List Row)) (n : Nat) (acc : List String) (d : Disk),
      ∃ K t, K ≤ bs.length ∧
        (t = [] ∨ t = [(chunkName (n + K), FileContent.truncated)]) ∧
        batchLoop wr bs n acc d =
          (acc ++ (List.range' n K).map chunkName,
           d ++ (List.range' n K).map
               (fun i => (chunkName i, FileContent.full (bs.getD (i - n) []))) ++ t) := by
  intro bs
  induction bs with
  | nil =>
      intro n acc d
      exact ⟨0, [], by simp [batchLoop]⟩
  | cons b t ih =>
      intro n acc d
      cases hw : wr n b with
      | ok =>
          obtain ⟨K, tl, hK, htl, hres⟩ := ih (n + 1) (acc ++ [chunkName n])
            (d ++ [(chunkName n, FileContent.full b)])
          refine ⟨K + 1, tl, by simp only [List.length_cons]; omega, ?_, ?_⟩
          · rcases htl with h | h
            · exact Or.inl h
            · refine Or.inr ?_
              rw [h]
              have : n + 1 + K = n + (K + 1) := by omega
              rw [this]
          · have hmc : ∀ i ∈ List.range' (n + 1) K,
                (fun i => (chunkName i, FileContent.full (t.getD (i - (n + 1)) []))) i =
                (fun i => (chunkName i, FileContent.full ((b :: t).getD (i - n) []))) i := by
              intro i hi
              rcases List.mem_range'.mp hi with ⟨j, hj, rfl⟩
              simp only
              have e1 : n + 1 + 1 * j - (n + 1) = j := by omega
              have e2 : n + 1 + 1 * j - n = j + 1 := by omega
              rw [e1, e2, List.getD_cons_succ]
            simp only [batchLoop, hw, hres]
            simp only [List.range'_succ, List.map_cons, Prod.mk.injEq]
            refine ⟨by simp [List.append_assoc], ?_⟩
            simp only [List.append_assoc, List.singleton_append, List.cons_append,
              Nat.sub_self, List.getD_cons_zero, List.nil_append, List.map_congr_left hmc]
      | failClean =>
          exact ⟨0, [], by simp [batchLoop, hw]⟩
      | failTrunc =>
          exact ⟨0, [(chunkName n, FileContent.truncated)],
            by simp [batchLoop, hw]⟩

/-- Looking up segment `j`'s file among the entries for segments
`s..s+K-1` (followed by anything) finds its content. -/
theorem readFile_entries (f : Nat → FileContent) :
    ∀ (K s j : Nat) (t : Disk), s ≤ j → j < s + K →
      readFile (((List.range' s K).map fun i => (chunkName i, f i)) ++ t) (chunkName j)
        = some (f j) := by
  intro K
  induction K with
  | zero => intro s j t h1 h2; omega
  | succ K ih =>
      intro s j t h1 h2
      rw [List.range'_succ, List.map_cons, List.cons_append]
      by_cases hsj : s = j
      · subst hsj
        rw [readFile, List.find?_cons_of_pos]
        · rfl
        · show (chunkName s == chunkName s) = true
          simp
      · have hne : (chunkName s == chunkName j) = false :=
          beq_eq_false_iff_ne.mpr (fun he => hsj (chunkName_injective he))
        rw [readFile, List.find?_cons_of_neg]
        · show readFile ((List.range' (s + 1) K).map (fun i => (chunkName i, f i)) ++ t)
            (chunkName j) = some (f j)
          exact ih (s + 1) j t (by omega) (by omega)
        · simp [hne]

theorem pytrunc_eq_floor {q : ℚ} (h : 0 ≤ q) : pytrunc q = ⌊q⌋ := by
  rw [pytrunc, Rat.floor_def]
  exact Int.tdiv_eq_ediv (Rat.num_nonneg.mpr h) (by positivity)

theorem pytrunc_nonpos {q : ℚ} (h : q ≤ 0) : pytrunc q ≤ 0 := by
  rw [pytrunc]
  have hn : q.num ≤ 0 := by
    by_contra hc
    push_neg at hc
    exact absurd (Rat.num_pos.mp hc) (not_lt.mpr h)
  have h2 : 0 ≤ (-q.num).tdiv q.den := Int.tdiv_nonneg (by omega) (by positivity)
  rw [Int.neg_tdiv] at h2
  omega

theorem pytrunc_le_zero_of_lt_one {q : ℚ} (h : q < 1) : pytrunc q ≤ 0 := by
  rcases le_or_lt q 0 with h0 | h0
  · exact pytrunc_nonpos h0
  · rw [pytrunc_eq_floor h0.le]
    have : ⌊q⌋ < 1 := Int.floor_lt.mpr (by exact_mod_cast h)
    omega

theorem max_pytrunc_toNat (x : ℚ) :
    (max 1000 (pytrunc x)).toNat = (max 1000 ⌊x⌋).toNat := by
  rcases le_or_lt 0 x with h | h
  · rw [pytrunc_eq_floor h]
  · have h1 : pytrunc x ≤ 0 := pytrunc_nonpos h.le
    have h2 : ⌊x⌋ ≤ 0 := by
      have := Int.floor_le_floor h.le
      simpa using this
    rw [max_eq_left (by omega), max_eq_left (by omega)]

theorem max_toNat_of_nonpos {z : ℤ} (h : z ≤ 0) : (max 1000 z).toNat = 1000 := by
  rw [max_eq_left (by omega)]
  rfl

/-- The success path of the estimator. -/
theorem estimate_success {mem : List Row → ℚ} {ls : List Line} {sample : List Row}
    {rem : List Line} {q : ℚ} (hs : readBatch 1000 ls = Except.ok (sample, rem))
    (h0 : sample.length ≠ 0) (hm : mem sample ≠ 0) :
    estimate_rows_per_chunk mem (FileRes.content ls) q =
      (max 1000
        (pytrunc (q * 1048576 / (mem sample / (sample.length : ℚ))))).toNat := by
  simp only [estimate_rows_per_chunk, hs, if_neg h0, if_neg hm]

theorem estimate_replicate {N : Nat} (r : Row) (hN : 1000 ≤ N) :
    estimate_rows_per_chunk (fun rs => (rs.length : ℚ))
      (FileRes.content (List.replicate N (Line.good r))) (1000 / 1048576) = 1000 := by
  rw [estimate_success (readBatch_replicate_le (by norm_num) hN)
    (by simp only [List.length_replicate]; norm_num)
    (by simp only [List.length_replicate]; norm_num)]
  simp only [List.length_replicate]
  have harg : (1000 : ℚ) / 1048576 * 1048576 / (((1000 : ℕ) : ℚ) / ((1000 : ℕ) : ℚ)) =
      1000 := by
    push_cast
    norm_num
  rw [harg, pytrunc_eq_floor (by norm_num), (by norm_num : ⌊(1000 : ℚ)⌋ = (1000 : ℤ)),
    max_self]
  rfl

/-- The whole call, on a readable nonempty input with a working output
directory. -/
theorem split_content {c : Converter} {env : Env} {csm : Option ℚ} {ls : List Line}
    (hf : env.file = FileRes.content ls) (hm : env.mkdirOk = true) :
    split_and_convert c env csm =
      (Converter.mk (effSize c csm),
       (batchLoop env.write
         (batchStream (estimate_rows_per_chunk env.mem env.file (effSize c csm)) ls).1
         0 [] []).2,
       Except.ok (reportOf env (estimate_rows_per_chunk env.mem env.file (effSize c csm)),
         (batchLoop env.write
           (batchStream (estimate_rows_per_chunk env.mem env.file (effSize c csm)) ls).1
           0 [] []).1)) := by
  simp only [split_and_convert, hm, if_true, convertPass, hf]

theorem split_unreadable {c : Converter} {env : Env} {csm : Option ℚ}
    (hf : env.file = FileRes.unreadable) (hm : env.mkdirOk = true) :
    split_and_convert c env csm =
      (Converter.mk (effSize c csm), [], Except.ok (none, [])) := by
  simp only [split_and_convert, hm, if_true, convertPass, hf, reportOf, get_total_rows]

theorem split_empty {c : Converter} {env : Env} {csm : Option ℚ}
    (hf : env.file = FileRes.empty) (hm : env.mkdirOk = true) :
    split_and_convert c env csm =
      (Converter.mk (effSize c csm), [], Except.ok (none, [])) := by
  simp only [split_and_convert, hm, if_true, convertPass, hf, reportOf, get_total_rows]

theorem split_nomkdir {c : Converter} {env : Env} {csm : Option ℚ}
    (hm : env.mkdirOk = false) :
    split_and_convert c env csm =
      (Converter.mk (effSize c csm), [], Except.error ()) := by
  simp only [split_and_convert, hm, Bool.false_eq_true, if_false]

/-! Concrete environments used to exercise the theorems. -/

/-- A file of 100 well-formed records with 5 malformed lines interleaved. -/
def mixedFile : List Line :=
  (List.replicate 5 (Line.bad :: List.replicate 20 (Line.good ["x"]))).flatten

/-- Ten million and one identical well-formed records, read in batches of
1000 (the estimator returns the floor on this environment), every write
succeeding. -/
def bigEnv : Env :=
  Env.mk (FileRes.content (List.replicate 10000001 (Line.good ["x"])))
    (fun rs => (rs.length : ℚ)) true (fun _ _ => WriteOutcome.ok)

/-- A single-record file whose measured sample footprint is 256 KiB per
record; every write succeeds. -/
def oneRowEnv : Env :=
  Env.mk (FileRes.content [Line.good ["a"]]) (fun _ => (262144 : ℚ)) true
    (fun _ _ => WriteOutcome.ok)

/-- Same single-record file, but the write fails leaving a truncated file at
the destination path. -/
def truncEnv : Env :=
  Env.mk (FileRes.content [Line.good ["a"]]) (fun _ => (262144 : ℚ)) true
    (fun _ _ => WriteOutcome.failTrunc)

/-- A two-line file whose second line is malformed; every write succeeds. -/
def mixed2Env : Env :=
  Env.mk (FileRes.content [Line.good ["a"], Line.bad]) (fun _ => (262144 : ℚ)) true
    (fun _ _ => WriteOutcome.ok)

/-- Three lines, the middle one malformed; every write succeeds. -/
def threeLineEnv : Env :=
  Env.mk (FileRes.content [Line.good ["a"], Line.bad, Line.good ["b"]])
    (fun _ => (262144 : ℚ)) true (fun _ _ => WriteOutcome.ok)

/-- An unreadable input path. -/
def unreadableEnv : Env :=
  Env.mk FileRes.unreadable (fun _ => (262144 : ℚ)) true (fun _ _ => WriteOutcome.ok)

/-- A non-creatable output directory. -/
def nomkdirEnv : Env :=
  Env.mk (FileRes.content [Line.good ["a"]]) (fun _ => (262144 : ℚ)) false
    (fun _ _ => WriteOutcome.ok)

/-- A file of 1001 identical records with batch size 1000 (so two chunks);
the write of chunk 1 fails cleanly. -/
def failSecondEnv : Env :=
  Env.mk (FileRes.content (List.replicate 1001 (Line.good ["x"])))
    (fun rs => (rs.length : ℚ)) true
    (fun n _ => if n = 0 then WriteOutcome.ok else WriteOutcome.failClean)

theorem estimate_oneRow (mem : List Row → ℚ) (q : ℚ) (hmem : mem [["a"]] = 262144) :
    estimate_rows_per_chunk mem (FileRes.content [Line.good ["a"]]) q =
      (max 1000 (pytrunc (q * 1048576 / 262144))).toNat := by
  rw [estimate_success (rfl : readBatch 1000 [Line.good ["a"]] = Except.ok ([["a"]], []))
    (by norm_num) (by rw [hmem]; norm_num)]
  rw [hmem]
  have h1 : (([["a"]] : List Row).length : ℚ) = 1 := by norm_num
  rw [h1, div_one]

theorem all_good_replicate (N : Nat) (r : Row) :
    (List.replicate N (Line.good r)).all isGoodLine = true := by
  rw [List.all_eq_true]
  intro x hx
  rw [List.eq_of_mem_replicate hx]
  rfl

theorem parsedRows_replicate (N : Nat) (r : Row) :
    parsedRows (List.replicate N (Line.good r)) = List.replicate N r := by
  induction N with
  | zero => rfl
  | succ N ih => simp only [List.replicate_succ, parsedRows, ih]

theorem batchStream_replicate (r : Row) (N : Nat) :
    (batchStream 1000 (List.replicate N (Line.good r))).2 = false ∧
    (batchStream 1000 (List.replicate N (Line.good r))).1.length =
      if N = 0 then 0 else (N - 1) / 1000 + 1 :=
  batchStreamAux_replicate_len r (List.replicate N (Line.good r)).length N
    (by rw [List.length_replicate])

/-- The concrete run of `oneRowEnv` with an explicit `chunk_size_mb=0`
override: the invalid size is not rejected, the estimator clamps to 1000,
and the single record is converted into `chunk_0000.parquet`. -/
theorem run_oneRow_zero :
    split_and_convert (Converter.mk 250) oneRowEnv (some 0) =
      (Converter.mk 0, [(chunkName 0, FileContent.full [["a"]])],
       Except.ok (some 1, [chunkName 0])) := by
  have hk : estimate_rows_per_chunk oneRowEnv.mem oneRowEnv.file
      (effSize (Converter.mk 250) (some 0)) = 1000 := by
    show estimate_rows_per_chunk oneRowEnv.mem (FileRes.content [Line.good ["a"]])
      (effSize (Converter.mk 250) (some 0)) = 1000
    rw [estimate_oneRow oneRowEnv.mem (effSize (Converter.mk 250) (some 0)) rfl]
    simp only [effSize]
    rw [(by norm_num : (0 : ℚ) * 1048576 / 262144 = (0 : ℚ)),
      pytrunc_eq_floor le_rfl, Int.floor_zero,
      (by norm_num : max 1000 (0 : ℤ) = 1000)]
    rfl
  rw [split_content rfl rfl, hk]
  rfl

/-- The concrete run of `truncEnv` (write fails leaving a truncated file):
no file is returned, but the truncated leftover is on disk at the final
path. -/
theorem run_trunc :
    split_and_convert (Converter.mk 250) truncEnv none =
      (Converter.mk 250, [(chunkName 0, FileContent.truncated)],
       Except.ok (some 1, [])) := by
  have hk : estimate_rows_per_chunk truncEnv.mem truncEnv.file
      (effSize (Converter.mk 250) none) = 1000 := by
    show estimate_rows_per_chunk truncEnv.mem (FileRes.content [Line.good ["a"]])
      (effSize (Converter.mk 250) none) = 1000
    rw [estimate_oneRow truncEnv.mem (effSize (Converter.mk 250) none) rfl]
    simp only [effSize]
    rw [(by norm_num : (250 : ℚ) * 1048576 / 262144 = (1000 : ℚ)),
      pytrunc_eq_floor (by norm_num), (by norm_num : ⌊(1000 : ℚ)⌋ = (1000 : ℤ)), max_self]
    rfl
  rw [split_content rfl rfl, hk]
  rfl

/-! Claim theorems. -/

/-- C3: on the success path `estimate_rows_per_chunk` returns
`max(1000, floor(target_bytes / average_bytes_per_record))` (Python's `int`
truncation agrees with the floor once clamped by the `max`), and whenever
the average bytes-per-record exceeds the target byte budget the result is
exactly the floor value 1000, never less. -/
theorem claim3_estimation_formula_and_floor
    (mem : List Row → ℚ) (ls : List Line) (sample : List Row) (rem : List Line)
    (q : ℚ) (hs : readBatch 1000 ls = Except.ok (sample, rem)) (h0 : sample ≠ [])
    (hm : 0 < mem sample) :
    estimate_rows_per_chunk mem (FileRes.content ls) q =
      (max 1000 ⌊q * 1048576 / (mem sample / (sample.length : ℚ))⌋).toNat ∧
    (q * 1048576 < mem sample / (sample.length : ℚ) →
      estimate_rows_per_chunk mem (FileRes.content ls) q = 1000) := by
  have h0' : sample.length ≠ 0 := fun h => h0 (List.eq_nil_of_length_eq_zero h)
  have hm' : mem sample ≠ 0 := ne_of_gt hm
  have hbase := @estimate_success mem ls sample rem q hs h0' hm'
  constructor
  · rw [hbase, max_pytrunc_toNat]
  · intro hlt
    have hlpos : (0 : ℚ) < (sample.length : ℚ) := by
      have := Nat.pos_of_ne_zero h0'
      exact_mod_cast this
    have havg : (0 : ℚ) < mem sample / (sample.length : ℚ) := div_pos hm hlpos
    have hratio : q * 1048576 / (mem sample / (sample.length : ℚ)) < 1 :=
      (div_lt_one havg).mpr hlt
    rw [hbase]
    exact max_toNat_of_nonpos (pytrunc_le_zero_of_lt_one hratio)

/-- Witness for C3: a one-record sample measuring 2 MiB per record against a
1 MB target budget; the estimator returns the floor 1000. -/
theorem claim3_witness :
    estimate_rows_per_chunk (fun _ => 2097152) (FileRes.content [Line.good ["a"]]) 1
      = 1000 :=
  (claim3_estimation_formula_and_floor (fun _ => 2097152) [Line.good ["a"]]
      [["a"]] [] 1 rfl (by decide) (by norm_num)).2
    (by norm_num [List.length_singleton])

/-- C4 (counterexample): a readable input whose sample holds zero records
(for example a header-only file, or one whose sampled lines are all
malformed and skipped) makes `estimate_rows_per_chunk` return 1000 — numpy's
`int64 / 0 = inf` avoids the exception handler — not the failure default
10000 the claim requires. -/
theorem claim4_counterexample :
    estimate_rows_per_chunk (fun _ => 132) (FileRes.content []) 250 = 1000 := rfl

/-- C4 (amended): an unreadable file, an empty file, or an I/O/decode error
while sampling is caught and yields the default 10000 (as does the
`OverflowError` raised by `int(inf)` when the measured footprint is zero);
but a readable sample with zero records takes the numpy division route
(`int64 / 0 = inf`, `int(target / inf) = 0`) to the success path and returns
the floor 1000, not 10000.  The function is total: no exception propagates
to the caller. -/
theorem claim4_estimation_failure_policy (mem : List Row → ℚ) (q : ℚ)
    (ls : List Line) (sample : List Row) (rem : List Line) :
    estimate_rows_per_chunk mem FileRes.unreadable q = 10000 ∧
    estimate_rows_per_chunk mem FileRes.empty q = 10000 ∧
    (readBatch 1000 ls = Except.error () →
      estimate_rows_per_chunk mem (FileRes.content ls) q = 10000) ∧
    (readBatch 1000 ls = Except.ok (sample, rem) → sample = [] →
      estimate_rows_per_chunk mem (FileRes.content ls) q = 1000) ∧
    (readBatch 1000 ls = Except.ok (sample, rem) → sample ≠ [] → mem sample = 0 →
      estimate_rows_per_chunk mem (FileRes.content ls) q = 10000) := by
  refine ⟨rfl, rfl, ?_, ?_, ?_⟩
  · intro h
    simp only [estimate_rows_per_chunk, h]
  · intro h hnil
    subst hnil
    simp only [estimate_rows_per_chunk, h, List.length_nil, eq_self_iff_true, if_true]
  · intro h hne hm
    have h0 : sample.length ≠ 0 := fun hz => hne (List.eq_nil_of_length_eq_zero hz)
    simp only [estimate_rows_per_chunk, h, if_neg h0, if_pos hm]

/-- Witness for C4 (amended): an I/O failure inside the sample yields 10000;
a sample of only malformed (skipped) lines yields zero records and the
floor 1000. -/
theorem claim4_witness :
    estimate_rows_per_chunk (fun _ => 132) (FileRes.content [Line.ioFail]) 250
      = 10000 ∧
    estimate_rows_per_chunk (fun _ => 132) (FileRes.content [Line.bad]) 250
      = 1000 :=
  ⟨(claim4_estimation_failure_policy (fun _ => 132) 250 [Line.ioFail] [] []).2.2.1 rfl,
   (claim4_estimation_failure_policy (fun _ => 132) 250 [Line.bad] [] []).2.2.2.1
     rfl rfl⟩

/-- C5 (counterexample): on an input of 100 well-formed records with 5
malformed lines interleaved, the counting pass does not skip the malformed
lines — its reader uses the default `on_bad_lines='error'` — so
`get_total_rows` returns `none` instead of succeeding with the count 100. -/
theorem claim5_counterexample :
    get_total_rows (FileRes.content mixedFile) = none := rfl

/-- C5 (amended): malformed lines are skipped, and are not fatal, during the
batch-reading pass — the chunks read for conversion together contain exactly
the well-formed records, in order — while during the row-counting pass a
malformed line aborts counting, so `get_total_rows` returns `none`
(non-fatally for the run) rather than skipping it. -/
theorem claim5_malformed_lines (k : Nat) (ls : List Line)
    (hnf : noFail ls = true) :
    (ls.any isBadLine = true → get_total_rows (FileRes.content ls) = none) ∧
    (batchStream k ls).2 = false ∧
    (batchStream k ls).1.flatten = parsedRows ls := by
  refine ⟨?_, (batchStream_clean hnf).1, (batchStream_clean hnf).2⟩
  intro hb
  have hall : ls.all isGoodLine = false := by
    rcases List.any_eq_true.mp hb with ⟨x, hx, hbx⟩
    have hxbad : x = Line.bad := by
      cases x with
      | bad => rfl
      | good r => simp [isBadLine] at hbx
      | ioFail => simp [isBadLine] at hbx
    subst hxbad
    cases hc : ls.all isGoodLine with
    | false => rfl
    | true =>
        have := List.all_eq_true.mp hc _ hx
        simp [isGoodLine] at this
  simp only [get_total_rows, readStrictAll_not_all_good hall]

/-- Witness for C5: the 100-good/5-bad file; counting returns `none`, the
conversion pass reads exactly the 100 well-formed records. -/
theorem claim5_witness :
    get_total_rows (FileRes.content mixedFile) = none ∧
    (batchStream 10000 mixedFile).1.flatten = parsedRows mixedFile ∧
    (parsedRows mixedFile).length = 100 ∧
    noFail mixedFile = true :=
  ⟨(claim5_malformed_lines 10000 mixedFile (by decide)).1 (by decide),
   (claim5_malformed_lines 10000 mixedFile (by decide)).2.2,
   by decide, by decide⟩

/-- C6: `get_total_rows` returns the total record count on a fully
parseable file and `none` whenever any error occurs while counting — it
never raises — and `split_and_convert` still runs the conversion pass on the
`none` result, with only the progress-bar total degraded to `none`. -/
theorem claim6_counting_best_effort (c : Converter) (env : Env) (csm : Option ℚ)
    (ls : List Line) :
    (ls.all isGoodLine = true →
      get_total_rows (FileRes.content ls) = some (parsedRows ls).length) ∧
    (ls.all isGoodLine = false → get_total_rows (FileRes.content ls) = none) ∧
    (env.mkdirOk = true → get_total_rows env.file = none →
      (split_and_convert c env csm).2.2 =
        Except.ok (none,
          (convertPass env
            (estimate_rows_per_chunk env.mem env.file (effSize c csm))).1)) := by
  refine ⟨?_, ?_, ?_⟩
  · intro h
    simp only [get_total_rows, readStrictAll_all_good h]
  · intro h
    simp only [get_total_rows, readStrictAll_not_all_good h]
  · intro hm hnone
    simp only [split_and_convert, hm, if_true, reportOf, hnone]

/-- Witness for C6: a file with a malformed second line; counting yields
`none` and the run still returns the conversion pass's files. -/
theorem claim6_witness :
    get_total_rows mixed2Env.file = none ∧
    (split_and_convert (Converter.mk 250) mixed2Env none).2.2 =
      Except.ok (none,
        (convertPass mixed2Env
          (estimate_rows_per_chunk mixed2Env.mem mixed2Env.file
            (effSize (Converter.mk 250) none))).1) := by
  have h := claim6_counting_best_effort (Converter.mk 250) mixed2Env none
    [Line.good ["a"], Line.bad]
  exact ⟨h.2.1 rfl, h.2.2 rfl (h.2.1 rfl)⟩

/-- C10: a `some` `chunk_size_mb` argument overwrites the instance field
before converting — the state returned by the call holds the override, and a
later call on that state without an override behaves exactly like a
converter constructed with the override — while `none` leaves the field
unchanged. -/
theorem claim10_override_mutates_state (c : Converter) (env env2 : Env) (v : ℚ) :
    (split_and_convert c env (some v)).1 = Converter.mk v ∧
    (split_and_convert c env none).1 = c ∧
    split_and_convert (split_and_convert c env (some v)).1 env2 none =
      split_and_convert (Converter.mk v) env2 none := by
  have h1 : (split_and_convert c env (some v)).1 = Converter.mk v := by
    cases hm : env.mkdirOk with
    | false => simp [split_and_convert, hm, effSize]
    | true => simp [split_and_convert, hm, effSize]
  refine ⟨h1, ?_, by rw [h1]⟩
  cases hm : env.mkdirOk with
  | false => simp [split_and_convert, hm, effSize]
  | true => simp [split_and_convert, hm, effSize]

/-- C1: if reading succeeded for batches `0..N-1` and writing batch `N`
fails (after segments `0..N-1` were persisted), `split_and_convert` stops,
returns normally — reporting the error instead of raising — with exactly the
paths of segments `0..N-1`, and every one of those segment files is still on
disk, complete, with the records of its batch. -/
theorem claim1_partial_failure_retention
    (c : Converter) (env : Env) (csm : Option ℚ) (ls : List Line) (N : Nat)
    (k : Nat) (bs : List (List Row))
    (hk : k = estimate_rows_per_chunk env.mem env.file (effSize c csm))
    (hbs : bs = (batchStream k ls).1)
    (hf : env.file = FileRes.content ls) (hm : env.mkdirOk = true)
    (hN : N < bs.length)
    (hok : ∀ j, j < N → env.write j (bs.getD j []) = WriteOutcome.ok)
    (hfail : env.write N (bs.getD N []) ≠ WriteOutcome.ok) :
    (split_and_convert c env csm).2.2 =
      Except.ok (reportOf env k, (List.range N).map chunkName) ∧
    ∀ j, j < N →
      readFile (split_and_convert c env csm).2.1 (chunkName j) =
        some (FileContent.full (bs.getD j [])) := by
  subst hk
  subst hbs
  have hloop := @batchLoop_fail env.write _ N 0 [] [] hN
    (fun j hj => by simpa using hok j hj)
    (by simpa using hfail)
  rw [split_content hf hm]
  constructor
  · simp only [hloop, List.nil_append, List.range_eq_range']
  · intro j hj
    simp only [hloop, List.nil_append]
    have hfun :
        (fun i => (chunkName i,
          FileContent.full
            (((batchStream
                (estimate_rows_per_chunk env.mem env.file (effSize c csm)) ls).1).getD
              (i - 0) []))) =
        (fun i => (chunkName i,
          FileContent.full
            (((batchStream
                (estimate_rows_per_chunk env.mem env.file (effSize c csm)) ls).1).getD
              i []))) := by
      funext i
      rw [Nat.sub_zero]
    rw [hfun]
    exact readFile_entries _ N 0 j _ (Nat.zero_le j) (by omega)

/-- Witness for C1: 1001 identical records, batch size 1000 (two batches);
the write of batch 1 fails after batch 0 was persisted. -/
theorem claim1_witness :
    (split_and_convert (Converter.mk 250) failSecondEnv (some (1000 / 1048576))).2.2 =
      Except.ok
        (reportOf failSecondEnv
          (estimate_rows_per_chunk failSecondEnv.mem failSecondEnv.file
            (effSize (Converter.mk 250) (some (1000 / 1048576)))),
         (List.range 1).map chunkName) ∧
    readFile
        (split_and_convert (Converter.mk 250) failSecondEnv
          (some (1000 / 1048576))).2.1 (chunkName 0) =
      some (FileContent.full
        ((batchStream
            (estimate_rows_per_chunk failSecondEnv.mem failSecondEnv.file
              (effSize (Converter.mk 250) (some (1000 / 1048576))))
            (List.replicate 1001 (Line.good ["x"]))).1.getD 0 [])) := by
  have hk : estimate_rows_per_chunk failSecondEnv.mem failSecondEnv.file
      (effSize (Converter.mk 250) (some (1000 / 1048576))) = 1000 :=
    estimate_replicate ["x"] (by norm_num)
  have hN : 1 < ((batchStream
      (estimate_rows_per_chunk failSecondEnv.mem failSecondEnv.file
        (effSize (Converter.mk 250) (some (1000 / 1048576))))
      (List.replicate 1001 (Line.good ["x"]))).1).length := by
    rw [hk, (batchStream_replicate ["x"] 1001).2]
    norm_num
  have happ := claim1_partial_failure_retention (Converter.mk 250) failSecondEnv
    (some (1000 / 1048576)) (List.replicate 1001 (Line.good ["x"])) 1 _ _ rfl rfl
    rfl rfl hN
    (fun j hj => by
      have hj0 : j = 0 := by omega
      subst hj0
      rfl)
    (by
      intro hcontra
      have hcl : failSecondEnv.write 1
          (((batchStream
            (estimate_rows_per_chunk failSecondEnv.mem failSecondEnv.file
              (effSize (Converter.mk 250) (some (1000 / 1048576))))
            (List.replicate 1001 (Line.good ["x"]))).1).getD 1 []) =
          WriteOutcome.failClean := rfl
      rw [hcl] at hcontra
      exact WriteOutcome.noConfusion hcontra)
  exact ⟨happ.1, happ.2 0 (by norm_num)⟩

/-- C2 (amended): every run (complete or partial) returns filenames that are
exactly `chunk_<i, zero-padded to ≥ 4 digits>.parquet` for `i = 0..K-1`, in
order, with no gaps or duplicates; and provided the run produces at most
10000 segments the names are also strictly increasing in lexicographic
order.  (Beyond 10000 segments the 4-digit padding overflows and the
lexicographic order breaks; see the counterexample.) -/
theorem claim2_contiguous_sortable_names (c : Converter) (env : Env)
    (csm : Option ℚ) (rep : Option Nat) (fs : List String)
    (h : (split_and_convert c env csm).2.2 = Except.ok (rep, fs)) :
    ∃ K, fs = (List.range K).map chunkName ∧ fs.Nodup ∧
      (K ≤ 10000 → fs.Pairwise nameLt) := by
  have hfs : ∃ K, fs = (List.range K).map chunkName := by
    cases hm : env.mkdirOk with
    | false =>
        rw [split_nomkdir hm] at h
        simp at h
    | true =>
        cases hfile : env.file with
        | unreadable =>
            rw [split_unreadable hfile hm] at h
            simp only [Except.ok.injEq, Prod.mk.injEq] at h
            exact ⟨0, by rw [← h.2]; rfl⟩
        | empty =>
            rw [split_empty hfile hm] at h
            simp only [Except.ok.injEq, Prod.mk.injEq] at h
            exact ⟨0, by rw [← h.2]; rfl⟩
        | content ls =>
            rw [split_content hfile hm] at h
            obtain ⟨K, t, hK, ht, hloop⟩ := @batchLoop_shape env.write
              (batchStream
                (estimate_rows_per_chunk env.mem env.file (effSize c csm)) ls).1
              0 [] []
            rw [hloop] at h
            simp only [Except.ok.injEq, Prod.mk.injEq, List.nil_append] at h
            exact ⟨K, by rw [← h.2, List.range_eq_range']⟩
  obtain ⟨K, rfl⟩ := hfs
  refine ⟨K, rfl, List.Nodup.map chunkName_injective (List.nodup_range K), ?_⟩
  intro hK10
  rw [List.pairwise_map]
  apply List.Pairwise.imp_of_mem ?_ (List.pairwise_lt_range K)
  intro a b _ hb hab
  exact chunkName_lt hab (by
    have := List.mem_range.mp hb
    omega)

/-- Witness for C2 (amended): the single-segment run of `oneRowEnv`. -/
theorem claim2_witness :
    ∃ K, [chunkName 0] = (List.range K).map chunkName ∧
      ([chunkName 0] : List String).Nodup ∧
      (K ≤ 10000 → ([chunkName 0] : List String).Pairwise nameLt) :=
  claim2_contiguous_sortable_names (Converter.mk 250) oneRowEnv (some 0)
    (some 1) [chunkName 0] (by rw [run_oneRow_zero])

/-- C2 (counterexample): a run that produces 10001 segments.  The names are
still exactly `chunk_0000.parquet` … `chunk_10000.parquet` in produced
order, but they do not sort lexicographically: `"chunk_10000.parquet" <
"chunk_9999.parquet"` as strings, because the zero-padding is only to *at
least* four digits. -/
theorem claim2_counterexample :
    (split_and_convert (Converter.mk 250) bigEnv (some (1000 / 1048576))).2.2 =
      Except.ok (some 10001, (List.range 10001).map chunkName) ∧
    ¬ ((List.range 10001).map chunkName).Pairwise nameLt := by
  constructor
  · have hk : estimate_rows_per_chunk bigEnv.mem bigEnv.file
        (effSize (Converter.mk 250) (some (1000 / 1048576))) = 1000 :=
      estimate_replicate ["x"] (by norm_num)
    rw [split_content rfl rfl, hk]
    have hloop := @batchLoop_all_ok bigEnv.write (fun n b => rfl)
      (batchStream 1000 (List.replicate 10000001 (Line.good ["x"]))).1 0 [] []
    have htot : get_total_rows bigEnv.file = some 10000001 := by
      show get_total_rows
        (FileRes.content (List.replicate 10000001 (Line.good ["x"]))) = some 10000001
      rw [get_total_rows, readStrictAll_all_good (all_good_replicate 10000001 ["x"]),
        parsedRows_replicate]
      show some (List.replicate 10000001 (["x"] : Row)).length = some 10000001
      rw [List.length_replicate]
    have hrep : reportOf bigEnv 1000 = some 10001 := by
      rw [reportOf, htot]
      norm_num
    have hlen := (batchStream_replicate ["x"] 10000001).2
    rw [hloop, hrep, hlen]
    norm_num [List.range_eq_range']
  · intro hp
    have hl : ((List.range 10001).map chunkName).length = 10001 := by simp
    have hnear := List.pairwise_iff_getElem.mp hp 9999 10000
      (by rw [hl]; norm_num) (by rw [hl]; norm_num) (by norm_num)
    simp only [List.getElem_map, List.getElem_range] at hnear
    exact chunkName_9999_10000 hnear

/-- C7: on a run that completes (readable input, no I/O failure, every write
succeeds), reading back any produced segment yields exactly the records of
the batch written to it (column order preserved, no index column, by the
`to_parquet(index=False)` round-trip modelled in `Disk`), and the batches —
hence the concatenation of all segments in sequence order — reproduce every
successfully parsed input record exactly once, with skipped malformed rows
appearing in no segment. -/
theorem claim7_roundtrip
    (c : Converter) (env : Env) (csm : Option ℚ) (ls : List Line)
    (k : Nat) (bs : List (List Row))
    (hk : k = estimate_rows_per_chunk env.mem env.file (effSize c csm))
    (hbs : bs = (batchStream k ls).1)
    (hf : env.file = FileRes.content ls) (hm : env.mkdirOk = true)
    (hnf : noFail ls = true)
    (hw : ∀ n b, env.write n b = WriteOutcome.ok) :
    (split_and_convert c env csm).2.2 =
      Except.ok (reportOf env k, (List.range bs.length).map chunkName) ∧
    (∀ j, j < bs.length →
      readFile (split_and_convert c env csm).2.1 (chunkName j) =
        some (FileContent.full (bs.getD j []))) ∧
    bs.flatten = parsedRows ls := by
  subst hk
  subst hbs
  have hloop := batchLoop_all_ok hw
    (batchStream (estimate_rows_per_chunk env.mem env.file (effSize c csm)) ls).1
    0 [] []
  rw [split_content hf hm]
  refine ⟨?_, ?_, (batchStream_clean hnf).2⟩
  · simp only [hloop, List.nil_append, List.range_eq_range']
  · intro j hj
    simp only [hloop, List.nil_append]
    have hfun :
        (fun i => (chunkName i,
          FileContent.full
            (((batchStream
                (estimate_rows_per_chunk env.mem env.file (effSize c csm)) ls).1).getD
              (i - 0) []))) =
        (fun i => (chunkName i,
          FileContent.full
            (((batchStream
                (estimate_rows_per_chunk env.mem env.file (effSize c csm)) ls).1).getD
              i []))) := by
      funext i
      rw [Nat.sub_zero]
    rw [hfun]
    have := readFile_entries
      (fun i => FileContent.full
        (((batchStream
            (estimate_rows_per_chunk env.mem env.file (effSize c csm)) ls).1).getD
          i []))
      ((batchStream
        (estimate_rows_per_chunk env.mem env.file (effSize c csm)) ls).1).length
      0 j [] (Nat.zero_le j) (by omega)
    simpa using this

/-- Witness for C7: three lines with a malformed middle line; the single
segment reads back as the two well-formed records. -/
theorem claim7_witness :
    (split_and_convert (Converter.mk 250) threeLineEnv none).2.2 =
      Except.ok
        (reportOf threeLineEnv
          (estimate_rows_per_chunk threeLineEnv.mem threeLineEnv.file
            (effSize (Converter.mk 250) none)),
         (List.range
            ((batchStream
              (estimate_rows_per_chunk threeLineEnv.mem threeLineEnv.file
                (effSize (Converter.mk 250) none))
              [Line.good ["a"], Line.bad, Line.good ["b"]]).1).length).map
           chunkName) ∧
    readFile (split_and_convert (Converter.mk 250) threeLineEnv none).2.1
        (chunkName 0) =
      some (FileContent.full
        ((batchStream
            (estimate_rows_per_chunk threeLineEnv.mem threeLineEnv.file
              (effSize (Converter.mk 250) none))
            [Line.good ["a"], Line.bad, Line.good ["b"]]).1.getD 0 [])) ∧
    ((batchStream
        (estimate_rows_per_chunk threeLineEnv.mem threeLineEnv.file
          (effSize (Converter.mk 250) none))
        [Line.good ["a"], Line.bad, Line.good ["b"]]).1).flatten =
      parsedRows [Line.good ["a"], Line.bad, Line.good ["b"]] := by
  have hk : estimate_rows_per_chunk threeLineEnv.mem threeLineEnv.file
      (effSize (Converter.mk 250) none) = 2000 := by
    show estimate_rows_per_chunk threeLineEnv.mem
      (FileRes.content [Line.good ["a"], Line.bad, Line.good ["b"]])
      (effSize (Converter.mk 250) none) = 2000
    rw [estimate_success
      (rfl : readBatch 1000 [Line.good ["a"], Line.bad, Line.good ["b"]] =
        Except.ok ([["a"], ["b"]], [])) (by norm_num)
      (by show ¬ (262144 : ℚ) = 0; norm_num)]
    simp only [effSize]
    have hmem2 : threeLineEnv.mem [["a"], ["b"]] = 262144 := rfl
    have h2 : (([["a"], ["b"]] : List Row).length : ℚ) = 2 := by norm_num
    rw [hmem2, h2,
      (by norm_num : (250 : ℚ) * 1048576 / ((262144 : ℚ) / 2) = (2000 : ℚ)),
      pytrunc_eq_floor (by norm_num), (by norm_num : ⌊(2000 : ℚ)⌋ = (2000 : ℤ)),
      (by norm_num : max 1000 (2000 : ℤ) = 2000)]
    rfl
  have happ := claim7_roundtrip (Converter.mk 250) threeLineEnv none
    [Line.good ["a"], Line.bad, Line.good ["b"]] _ _ rfl rfl rfl rfl
    (by decide) (fun n b => rfl)
  refine ⟨happ.1, happ.2.1 0 ?_, happ.2.2⟩
  rw [hk]
  decide

/-- C8 (counterexample): a request with a non-positive target segment size
(`chunk_size_mb = 0`) is not rejected: the run proceeds, produces a segment
file, and returns it — so an invalid target size is neither fatal nor free
of output. -/
theorem claim8_counterexample :
    (split_and_convert (Converter.mk 250) oneRowEnv (some 0)).2.2 =
      Except.ok (some 1, [chunkName 0]) ∧
    (split_and_convert (Converter.mk 250) oneRowEnv (some 0)).2.1 =
      [(chunkName 0, FileContent.full [["a"]])] := by
  rw [run_oneRow_zero]
  exact ⟨rfl, rfl⟩

/-- C8 (amended): a non-creatable output directory raises before any read or
write, with no output; an unreadable input path fails inside the `try`,
returning the empty result with no output; but a non-positive target segment
size is **not** rejected — the estimator clamps the non-positive byte budget
to the 1000-record floor and conversion proceeds normally. -/
theorem claim8_invalid_request (c : Converter) (env : Env) (csm : Option ℚ)
    (mem : List Row → ℚ) (q : ℚ) (ls : List Line) (sample : List Row)
    (rem : List Line) :
    (env.mkdirOk = false →
      split_and_convert c env csm =
        (Converter.mk (effSize c csm), [], Except.error ())) ∧
    (env.mkdirOk = true → env.file = FileRes.unreadable →
      split_and_convert c env csm =
        (Converter.mk (effSize c csm), [], Except.ok (none, []))) ∧
    (q ≤ 0 → readBatch 1000 ls = Except.ok (sample, rem) → sample ≠ [] →
      0 < mem sample →
      estimate_rows_per_chunk mem (FileRes.content ls) q = 1000) := by
  refine ⟨fun hm => split_nomkdir hm, fun hm hf => split_unreadable hf hm, ?_⟩
  intro hq hs hne hmem
  have h0 : sample.length ≠ 0 := fun hz => hne (List.eq_nil_of_length_eq_zero hz)
  rw [estimate_success hs h0 (ne_of_gt hmem)]
  have hlpos : (0 : ℚ) < (sample.length : ℚ) := by
    have := Nat.pos_of_ne_zero h0
    exact_mod_cast this
  have havg : (0 : ℚ) < mem sample / (sample.length : ℚ) := div_pos hmem hlpos
  have htarget : q * 1048576 ≤ 0 := mul_nonpos_of_nonpos_of_nonneg hq (by norm_num)
  have hratio : q * 1048576 / (mem sample / (sample.length : ℚ)) < 1 :=
    lt_of_le_of_lt (div_nonpos_of_nonpos_of_nonneg htarget havg.le) one_pos
  exact max_toNat_of_nonpos (pytrunc_le_zero_of_lt_one hratio)

/-- Witness for C8 (amended): a non-creatable directory raises with no
output; an unreadable path returns empty with no output; a zero target size
leaves the estimator at the floor 1000. -/
theorem claim8_witness :
    split_and_convert (Converter.mk 250) nomkdirEnv none =
      (Converter.mk (effSize (Converter.mk 250) none), [], Except.error ()) ∧
    split_and_convert (Converter.mk 250) unreadableEnv none =
      (Converter.mk (effSize (Converter.mk 250) none), [], Except.ok (none, [])) ∧
    estimate_rows_per_chunk (fun _ => 262144) (FileRes.content [Line.good ["a"]]) 0
      = 1000 :=
  ⟨(claim8_invalid_request (Converter.mk 250) nomkdirEnv none (fun _ => 262144) 0
      [] [] []).1 rfl,
   (claim8_invalid_request (Converter.mk 250) unreadableEnv none (fun _ => 262144) 0
      [] [] []).2.1 rfl rfl,
   (claim8_invalid_request (Converter.mk 250) unreadableEnv none (fun _ => 262144) 0
      [Line.good ["a"]] [["a"]] []).2.2 le_rfl rfl (by decide) (by norm_num)⟩

/-- C9 (counterexample): segment persistence is a direct write to the final
path, not write-then-rename: a write that fails midway (e.g. disk full)
leaves a truncated file visible at `chunk_0000.parquet`, violating "no
partial-file visibility at that path".  (The truncated file is not part of
the returned result.) -/
theorem claim9_counterexample :
    (split_and_convert (Converter.mk 250) truncEnv none).2.1 =
      [(chunkName 0, FileContent.truncated)] ∧
    (split_and_convert (Converter.mk 250) truncEnv none).2.2 =
      Except.ok (some 1, []) := by
  rw [run_trunc]
  exact ⟨rfl, rfl⟩

/-- C9 (amended): every segment that appears in the returned result is
complete and independently readable — a path is appended to the result only
after its write succeeded, so reading any returned path yields a fully
written segment, never a truncated one. -/
theorem claim9_returned_segments_complete (c : Converter) (env : Env)
    (csm : Option ℚ) (rep : Option Nat) (fs : List String) (name : String)
    (h : (split_and_convert c env csm).2.2 = Except.ok (rep, fs))
    (hn : name ∈ fs) :
    ∃ rows, readFile (split_and_convert c env csm).2.1 name =
      some (FileContent.full rows) := by
  cases hm : env.mkdirOk with
  | false =>
      rw [split_nomkdir hm] at h
      simp at h
  | true =>
      cases hfile : env.file with
      | unreadable =>
          rw [split_unreadable hfile hm] at h
          simp only [Except.ok.injEq, Prod.mk.injEq] at h
          rw [← h.2] at hn
          simp at hn
      | empty =>
          rw [split_empty hfile hm] at h
          simp only [Except.ok.injEq, Prod.mk.injEq] at h
          rw [← h.2] at hn
          simp at hn
      | content ls =>
          obtain ⟨K, t, hK, ht, hloop⟩ := @batchLoop_shape env.write
            (batchStream
              (estimate_rows_per_chunk env.mem env.file (effSize c csm)) ls).1
            0 [] []
          rw [split_content hfile hm] at h
          rw [hloop] at h
          simp only [Except.ok.injEq, Prod.mk.injEq, List.nil_append] at h
          rw [← h.2] at hn
          obtain ⟨j, hj, rfl⟩ := List.mem_map.mp hn
          rcases List.mem_range'.mp hj with ⟨i, hi, rfl⟩
          simp only [Nat.zero_add, Nat.one_mul]
          rw [split_content hfile hm]
          refine ⟨((batchStream
            (estimate_rows_per_chunk env.mem env.file (effSize c csm)) ls).1).getD
              i [], ?_⟩
          simp only [hloop, List.nil_append]
          have hfun :
              (fun i => (chunkName i,
                FileContent.full
                  (((batchStream
                      (estimate_rows_per_chunk env.mem env.file
                        (effSize c csm)) ls).1).getD (i - 0) []))) =
              (fun i => (chunkName i,
                FileContent.full
                  (((batchStream
                      (estimate_rows_per_chunk env.mem env.file
                        (effSize c csm)) ls).1).getD i []))) := by
            funext i
            rw [Nat.sub_zero]
          rw [hfun]
          exact readFile_entries _ K 0 i t (Nat.zero_le i) (by omega)

/-- Witness for C9 (amended): the returned path of the `oneRowEnv` run reads
back as a complete segment. -/
theorem claim9_witness :
    ∃ rows, readFile (split_and_convert (Converter.mk 250) oneRowEnv (some 0)).2.1
      (chunkName 0) = some (FileContent.full rows) :=
  claim9_returned_segments_complete (Converter.mk 250) oneRowEnv (some 0)
    (some 1) [chunkName 0] (chunkName 0) (by rw [run_oneRow_zero]) (by simp)

end CsvSplit
